import Mathlib

/-!
Shallow embedding of `src/explore_step_file.py` (class `DocModel`): the
document-model walker that turns an XCAF-style label forest into the two
flat tables `part_dict` and `label_dict`.

Modelling conventions:
* Spatial transforms (`TopLoc_Location`) are an abstract monoid `M`:
  `TopLoc_Location()` is `1`, `loc.Multiplied(l)` is `loc * l`.
* Shape handles (`TopoDS_Shape`) are `Nat` ids; a positioned shape built by
  `BRepBuilderAPI_Transform(shape, loc)` is the pair `(shape, loc)`.
* Colors are rational RGB triples; the kernel's color table
  (`XCAFDoc_ColorTool`) is a pair of partial maps: instance colors keyed by
  shape id and scope (0,1,2), label colors keyed by label entry and scope.
* Python dicts become insertion-ordered association lists; the `_share_dict`
  serial map becomes a function `String → Option Nat`.
* The walker's emitted-uid trace (`WSt.trace`) is ghost instrumentation: it
  records every value returned by `_get_uid_from_entry` during one
  `parse_doc` call and is read by no part of the walker itself.
-/

namespace ExploreStep

/-- RGB color triple (`Quantity_Color` with `Quantity_TOC_RGB`). -/
structure Color where
  r : ℚ
  g : ℚ
  b : ℚ
deriving DecidableEq

/-- The default mid-gray `Quantity_Color(0.5, 0.5, 0.5, Quantity_TOC_RGB)`
(lines 288 and 347 of the source). -/
def defaultGray : Color := ⟨1/2, 1/2, 1/2⟩

/-- The kernel's color table: instance-level colors keyed by shape id and
scope index 0,1,2, and label-level colors keyed by label entry and scope. -/
structure ColorTable where
  inst : Nat → Nat → Option Color
  lbl : String → Nat → Option Color

/-- A color table with no color set anywhere. -/
def emptyColors : ColorTable := ⟨fun _ _ => none, fun _ _ => none⟩

/-- `color_tool.SetInstanceColor(shape, scope, c)`. -/
def setInstanceColor (ct : ColorTable) (shape scope : Nat) (c : Color) : ColorTable :=
  { ct with inst := fun s i => if s = shape ∧ i = scope then some c else ct.inst s i }

/-- The three consecutive `SetInstanceColor(shape, 0/1/2, c)` calls
(source lines 295-297, 316-318, 354-356, 375-377). -/
def setInstanceColor3 (ct : ColorTable) (shape : Nat) (c : Color) : ColorTable :=
  setInstanceColor (setInstanceColor (setInstanceColor ct shape 0 c) shape 1 c) shape 2 c

/-- The short-circuit chain
`GetInstanceColor(shape,0,c) or GetInstanceColor(shape,1,c) or GetInstanceColor(shape,2,c)`
(source lines 290-294): the first scope at which an instance color is set
wins. -/
def instColorQuery (ct : ColorTable) (shape : Nat) : Option Color :=
  (ct.inst shape 0).orElse (fun _ => (ct.inst shape 1).orElse (fun _ => ct.inst shape 2))

/-- The short-circuit chain `GetColor(lab,0,c) or GetColor(lab,1,c) or
GetColor(lab,2,c)` (source lines 310-314): label-level color lookup, keyed
by the label's entry. -/
def labelColorQuery (ct : ColorTable) (lab : String) : Option Color :=
  (ct.lbl lab 0).orElse (fun _ => (ct.lbl lab 1).orElse (fun _ => ct.lbl lab 2))

/-- Color resolution for a simple shape (source lines 288-318): `c` starts
as the default gray; if any instance scope has a color it wins and is
re-asserted at all three instance scopes; otherwise a label-level color (by
scope order) wins and is asserted at all three instance scopes; otherwise
the default gray is used and nothing is written back. -/
def resolveColor (ct : ColorTable) (shape : Nat) (lab : String) : Color × ColorTable :=
  match instColorQuery ct shape with
  | some c => (c, setInstanceColor3 ct shape c)
  | none =>
    match labelColorQuery ct lab with
    | some c => (c, setInstanceColor3 ct shape c)
    | none => (defaultGray, ct)

/-- Color resolution for a declared sub-shape (source lines 347-387).
Note: in the label-level fallback branch the source writes the color back
with `SetInstanceColor(shape, _, c)` — the enclosing simple shape's handle
(`shape`, here `parentShape`) — not the sub-shape's own handle `shape_sub`
(lines 375-377), while the instance-level branch writes to `shape_sub`
(lines 354-356). -/
def resolveSubColor (ct : ColorTable) (shapeSub parentShape : Nat) (lab : String) :
    Color × ColorTable :=
  match instColorQuery ct shapeSub with
  | some c => (c, setInstanceColor3 ct shapeSub c)
  | none =>
    match labelColorQuery ct lab with
    | some c => (c, setInstanceColor3 ct parentShape c)
    | none => (defaultGray, ct)

/-- A declared sub-shape label of a simple shape (an element of
`shape_tool.GetSubShapes`): its entry, its label name, and its own shape
handle (`shape_tool.GetShape(lab_subs)`). -/
structure SubShape where
  entry : String
  name : String
  shape : Nat
deriving DecidableEq

mutual
/-- A label of the XCAF document as seen by `_get_sub_shapes`: an assembly
with component labels, a simple shape with a shape handle and declared
sub-shapes, or a label of any other kind (which the walker visits but does
not record). Each label carries its entry token and its label name. -/
inductive XLabel (M : Type) : Type where
  | assembly : String → String → List (XComp M) → XLabel M
  | simple : String → String → Nat → List SubShape → XLabel M
  | other : String → String → XLabel M

/-- A component label of an assembly (an element of
`shape_tool.GetComponents`): whether `IsReference` holds, its entry, its
name, its local transform (`shape_tool.GetLocation`), and the prototype
label it refers to (`shape_tool.GetReferredShape`). -/
inductive XComp (M : Type) : Type where
  | mk : Bool → String → String → M → XLabel M → XComp M
end

/-- Entry token of a label (`TDF_Tool.Entry`). -/
def XLabel.entry {M : Type} : XLabel M → String
  | .assembly e _ _ => e
  | .simple e _ _ _ => e
  | .other e _ => e

/-- Label name of a label (`GetLabelName`). -/
def XLabel.labName {M : Type} : XLabel M → String
  | .assembly _ n _ => n
  | .simple _ n _ _ => n
  | .other _ n => n

/-- `IsReference` flag of a component. -/
def XComp.isRef {M : Type} : XComp M → Bool
  | .mk b _ _ _ _ => b

/-- Entry token of a component label. -/
def XComp.entry {M : Type} : XComp M → String
  | .mk _ e _ _ _ => e

/-- Local transform of a component (`GetLocation`). -/
def XComp.loc {M : Type} : XComp M → M
  | .mk _ _ _ l _ => l

/-- Prototype label a component refers to (`GetReferredShape`). -/
def XComp.target {M : Type} : XComp M → XLabel M
  | .mk _ _ _ _ t => t

/-- The document: its forest of free root labels and its color table. -/
structure Document (M : Type) where
  roots : List (XLabel M)
  colors : ColorTable

/-- A Part Record: `{'shape': shape_disp, 'name': name, 'color': c}`
(source lines 337-338); `shape` is the positioned shape `(handle, loc)`. -/
structure PartRec (M : Type) where
  shape : Nat × M
  name : String
  color : Color

/-- A Label Record: `{'entry', 'name', 'parent_uid', 'is_assy'}` (source
lines 188-191 and 255-259). The simple-shape branch additionally stores
`'ref_entry': None`; the assembly branch omits that key; both are modelled
as `ref_entry = none`. -/
structure LabelRec where
  entry : String
  name : String
  parent_uid : Option String
  ref_entry : Option String
  is_assy : Bool
deriving DecidableEq

/-- Python-dict insertion into an insertion-ordered association list: an
existing key is updated in place, a new key is appended. -/
def dictInsert {K V : Type} [DecidableEq K] (d : List (K × V)) (k : K) (v : V) :
    List (K × V) :=
  if k ∈ d.map Prod.fst then d.map (fun kv => if kv.1 = k then (k, v) else kv)
  else d ++ [(k, v)]

/-- `if not k in d: d[k] = v` (source lines 335-336 and 392-393). -/
def dictInsertIfAbsent {K V : Type} [DecidableEq K] (d : List (K × V)) (k : K) (v : V) :
    List (K × V) :=
  if k ∈ d.map Prod.fst then d else d ++ [(k, v)]

/-- `DocModel._get_uid_from_entry` (source lines 113-123): look the entry up
in `_share_dict` (default `-1`), add one, store the new serial back, and
return `entry + '.' + str(value)` together with the updated map. -/
def _get_uid_from_entry (share : String → Option Nat) (entry : String) :
    String × (String → Option Nat) :=
  let value : Nat :=
    match share entry with
    | some v => v + 1
    | none => 0
  (entry ++ "." ++ toString value, fun e => if e = entry then some value else share e)

/-- A straight-line run of `_get_uid_from_entry` over a list of entry
tokens, returning the emitted uids and the final serial map. -/
def allocRun (share : String → Option Nat) : List String → List String × (String → Option Nat)
  | [] => ([], share)
  | e :: rest =>
    let p := _get_uid_from_entry share e
    let q := allocRun p.2 rest
    (p.1 :: q.1, q.2)

/-- The mutable state threaded through one `parse_doc` call: the two tables
and `_share_dict` / `_parent_uid_stack` (fields of the `DocModel` object),
the document's color table, the local `output_shapes` dict, and the ghost
trace of all uids emitted by `_get_uid_from_entry` during this call. -/
structure WSt (M : Type) where
  part_dict : List (String × PartRec M)
  label_dict : List (String × LabelRec)
  share : String → Option Nat
  parentStack : List (Option String)
  colors : ColorTable
  outputs : List ((Nat × M) × (String × Color))
  trace : List String

/-- One call of `_get_uid_from_entry` acting on the walker state (mutating
`self._share_dict`); the returned uid is also recorded in the ghost trace. -/
def allocUidW {M : Type} (st : WSt M) (entry : String) : String × WSt M :=
  let p := _get_uid_from_entry st.share entry
  (p.1, { st with share := p.2, trace := st.trace ++ [p.1] })

/-- `self.label_dict[uid] = l_dict` (source lines 192 and 260). -/
def insertLabelRec {M : Type} (st : WSt M) (uid : String) (lrec : LabelRec) : WSt M :=
  { st with label_dict := dictInsert st.label_dict uid lrec }

/-- `self.part_dict[uid] = p_dict` (source line 338). -/
def insertPartRec {M : Type} (st : WSt M) (uid : String) (p : PartRec M) : WSt M :=
  { st with part_dict := dictInsert st.part_dict uid p }

/-- `self._parent_uid_stack.append(uid)` (source line 193). -/
def pushParent {M : Type} (st : WSt M) (uid : String) : WSt M :=
  { st with parentStack := st.parentStack ++ [some uid] }

/-- The body of the sub-shape loop (source lines 341-393) for one declared
sub-shape: resolve its color with `resolveSubColor` and register the
positioned sub-shape in `output_shapes` if absent. Only the color table and
`output_shapes` are touched. -/
def subShapeStep {M : Type} [DecidableEq M] (loc : M) (parentShape : Nat)
    (acc : ColorTable × List ((Nat × M) × (String × Color))) (sub : SubShape) :
    ColorTable × List ((Nat × M) × (String × Color)) :=
  let r := resolveSubColor acc.1 sub.shape parentShape sub.entry
  (r.2, dictInsertIfAbsent acc.2 (sub.shape, loc) (sub.name, r.1))

/-- The whole sub-shape loop of the simple-shape branch (source lines
341-393). -/
def subShapesLoop {M : Type} [DecidableEq M] (loc : M) (parentShape : Nat)
    (subs : List SubShape) (acc : ColorTable × List ((Nat × M) × (String × Color))) :
    ColorTable × List ((Nat × M) × (String × Color)) :=
  subs.foldl (subShapeStep loc parentShape) acc

mutual
/-- `_get_sub_shapes(lab, loc)` (source lines 125-393). `locs` is the
nonlocal transform-stack list at entry (its appends and pops around each
recursive call are balanced, so it is passed functionally), `lvl` is the
nonlocal level counter at entry. Every visited label first gets a uid from
`_get_uid_from_entry`; an assembly stores a Label Record, pushes its uid on
`_parent_uid_stack` and iterates over its components; a simple shape stores
a Label Record, composes the final transform by left-multiplying the stack
entries into the identity, resolves its color, stores a Part Record keyed
by its uid, and processes its declared sub-shapes; any other label is
visited (consuming a uid) but records nothing. -/
def _get_sub_shapes {M : Type} [Monoid M] [DecidableEq M]
    (lab : XLabel M) (locs : List M) (lvl : Nat) (st : WSt M) : WSt M :=
  match lab with
  | XLabel.assembly e n comps =>
    let a := allocUidW st e
    let parent_uid := a.2.parentStack.getLastD none
    let lrec : LabelRec :=
      { entry := e, name := n, parent_uid := parent_uid, ref_entry := none, is_assy := true }
    _get_sub_shapes_comps comps locs lvl (pushParent (insertLabelRec a.2 a.1 lrec) a.1)
  | XLabel.simple e n sh subs =>
    let a := allocUidW st e
    let parent_uid := a.2.parentStack.getLastD none
    let lrec : LabelRec :=
      { entry := e, name := n, parent_uid := parent_uid, ref_entry := none, is_assy := false }
    let st2 := insertLabelRec a.2 a.1 lrec
    let loc := locs.foldl (fun acc l => acc * l) 1
    let r := resolveColor st2.colors sh e
    let st3 := { st2 with colors := r.2 }
    let st4 := { st3 with outputs := dictInsertIfAbsent st3.outputs (sh, loc) (n, r.1) }
    let st5 := insertPartRec st4 a.1 { shape := (sh, loc), name := n, color := r.1 }
    let q := subShapesLoop loc sh subs (st5.colors, st5.outputs)
    { st5 with colors := q.1, outputs := q.2 }
  | XLabel.other e _ =>
    (allocUidW st e).2

/-- The component loop of the assembly branch (source lines 196-252): each
component that `IsReference` gets a uid for its own entry (used only for
logging, but it does mutate `_share_dict`), then the walker recurses into
the referred prototype with the component's transform appended to the stack
and the level raised by one; afterwards `_parent_uid_stack` is trimmed down
to length `lvl + 2`. Non-reference components are skipped. -/
def _get_sub_shapes_comps {M : Type} [Monoid M] [DecidableEq M]
    (cs : List (XComp M)) (locs : List M) (lvl : Nat) (st : WSt M) : WSt M :=
  match cs with
  | [] => st
  | XComp.mk isRef ce _ cloc target :: rest =>
    let st1 :=
      if isRef then
        let a := allocUidW st ce
        let st2 := _get_sub_shapes target (locs ++ [cloc]) (lvl + 1) a.2
        { st2 with parentStack := st2.parentStack.take (lvl + 2) }
      else st
    _get_sub_shapes_comps rest locs lvl st1
end

/-- `_get_shapes` (source lines 395-405): iterate over the free shapes at
root, invoking `_get_sub_shapes` on each; the transform stack is empty and
the level counter is 0 at the start of every root (both are balanced across
each call). -/
def _get_shapes {M : Type} [Monoid M] [DecidableEq M]
    (roots : List (XLabel M)) (st : WSt M) : WSt M :=
  match roots with
  | [] => st
  | r :: rest => _get_shapes rest (_get_sub_shapes r [] 0 st)

/-- The `DocModel` object state: the current document and the four fields
initialized in `__init__` (source lines 38-45). -/
structure DocModel (M : Type) where
  doc : Document M
  part_dict : List (String × PartRec M)
  label_dict : List (String × LabelRec)
  share : String → Option Nat
  parentStack : List (Option String)

/-- `DocModel.__init__` (source lines 38-45) with the given document in
place of `create_doc()`: empty `part_dict`, `label_dict` and `_share_dict`,
and `_parent_uid_stack = [None]`. -/
def mkDocModel {M : Type} (doc : Document M) : DocModel M :=
  { doc := doc, part_dict := [], label_dict := [], share := fun _ => none,
    parentStack := [none] }

/-- The result of one `parse_doc` call: the updated `DocModel` state, the
returned `output_shapes` dict, and the ghost trace of uids emitted by
`_get_uid_from_entry` during the call. -/
structure ParseResult (M : Type) where
  model : DocModel M
  output_shapes : List ((Nat × M) × (String × Color))
  uidTrace : List String

/-- `DocModel.parse_doc` (source lines 88-408): initialize the local
`output_shapes` and `locs`, then run `_get_shapes` over the current
document. Note that `self.part_dict`, `self.label_dict`, `self._share_dict`
and `self._parent_uid_stack` are the object's current values — `parse_doc`
contains no statement clearing any of them. -/
def parse_doc {M : Type} [Monoid M] [DecidableEq M] (m : DocModel M) : ParseResult M :=
  let st0 : WSt M :=
    { part_dict := m.part_dict, label_dict := m.label_dict, share := m.share,
      parentStack := m.parentStack, colors := m.doc.colors, outputs := [], trace := [] }
  let st := _get_shapes m.doc.roots st0
  { model :=
      { doc := { roots := m.doc.roots, colors := st.colors }, part_dict := st.part_dict,
        label_dict := st.label_dict, share := st.share, parentStack := st.parentStack },
    output_shapes := st.outputs, uidTrace := st.trace }

/-- The document held by the fresh `TDocStd_Document("Step-doc")` when
`step_reader.Transfer` was never invoked (failed `ReadFile`): no free
shapes, no colors. -/
def emptyStepDoc (M : Type) : Document M := { roots := [], colors := emptyColors }

/-- `DocModel.load_stp` (source lines 68-86). A falsy (empty) filename
returns at once. Otherwise a fresh document is created; `readResult` stands
for the outcome of `step_reader.ReadFile` + `Transfer`: `some d` when the
file was read and transferred, `none` when `ReadFile` did not return
`IFSelect_RetDone` (the fresh document stays empty). The document is
assigned to `self.doc` in either case and `parse_doc` is invoked. -/
def load_stp {M : Type} [Monoid M] [DecidableEq M] (m : DocModel M) (filename : String)
    (readResult : Option (Document M)) : DocModel M :=
  if filename = "" then m
  else
    let doc :=
      match readResult with
      | some d => d
      | none => emptyStepDoc M
    (parse_doc { m with doc := doc }).model

mutual
/-- Specification-side description of the leaves (simple shapes) of a label
subtree: each leaf is paired with the list of local transforms of the
reference labels it is reached through, in root-to-leaf (parent-first)
order, starting from the given ancestor path. -/
def specLeavesL {M : Type} (lab : XLabel M) (path : List M) : List (Nat × List M) :=
  match lab with
  | XLabel.assembly _ _ comps => specLeavesC comps path
  | XLabel.simple _ _ sh _ => [(sh, path)]
  | XLabel.other _ _ => []

/-- Specification-side leaves reached through a component list: a reference
component contributes the leaves of its target with its own transform
appended to the ancestor path; a non-reference component contributes
nothing. -/
def specLeavesC {M : Type} (cs : List (XComp M)) (path : List M) : List (Nat × List M) :=
  match cs with
  | [] => []
  | XComp.mk isRef _ _ cloc target :: rest =>
    (if isRef then specLeavesL target (path ++ [cloc]) else []) ++ specLeavesC rest path
end

/-- Specification-side leaves of a whole root forest, each with its
ancestor-reference transform path. -/
def specLeaves {M : Type} : List (XLabel M) → List (Nat × List M)
  | [] => []
  | r :: rest => specLeavesL r [] ++ specLeaves rest

/-- Allocator invariant: every uid in the trace was produced as
`entry + '.' + str(serial)` from some entry whose current bound in the
serial map is at least that serial. -/
def AllocInv (share : String → Option Nat) (t : List String) : Prop :=
  ∀ u ∈ t, ∃ e k v, u = e ++ "." ++ toString k ∧ share e = some v ∧ k ≤ v

/-- Walk invariant: the allocator invariant holds for the ghost trace, the
trace has no duplicates, and each table's keys are distinct traced uids. -/
def WInv {M : Type} (st : WSt M) : Prop :=
  AllocInv st.share st.trace ∧ st.trace.Nodup ∧
  st.label_dict.map Prod.fst ⊆ st.trace ∧ (st.label_dict.map Prod.fst).Nodup ∧
  st.part_dict.map Prod.fst ⊆ st.trace ∧ (st.part_dict.map Prod.fst).Nodup

/-- How one walker call extends the state: the trace and both tables grow
by suffixes, and the new Part Records' positioned shapes are exactly the
specification-side leaves with their ancestor transforms multiplied into
the identity in root-to-leaf order. -/
def WalkExt {M : Type} [Monoid M] (st stb : WSt M) (leaves : List (Nat × List M)) : Prop :=
  ∃ nT nL nP,
    stb.trace = st.trace ++ nT ∧
    stb.label_dict = st.label_dict ++ nL ∧
    stb.part_dict = st.part_dict ++ nP ∧
    nP.map (fun kv => kv.2.shape)
      = leaves.map (fun x => (x.1, List.foldl (fun a b => a * b) 1 x.2))

/-! ### Concrete sample inputs used to evaluate the embedded code -/

/-- A pure red color. -/
def redC : Color := ⟨1, 0, 0⟩

/-- A pure blue color. -/
def blueC : Color := ⟨0, 0, 1⟩

/-- A color table with an instance-level red on shape 5 at scope 1 and a
label-level blue on label `lab` at scope 0. -/
def ctBoth : ColorTable :=
  { inst := fun s i => if s = 5 ∧ i = 1 then some redC else none,
    lbl := fun e i => if e = "lab" ∧ i = 0 then some blueC else none }

/-- A color table with no instance-level colors and a label-level blue on
label `lab` at scope 2 only. -/
def ctLabelOnly : ColorTable :=
  { inst := fun _ _ => none,
    lbl := fun e i => if e = "lab" ∧ i = 2 then some blueC else none }

/-- A color table with no instance-level colors and a label-level blue on
the sub-shape label `sub` at scope 0. -/
def ctSubLabelOnly : ColorTable :=
  { inst := fun _ _ => none,
    lbl := fun e i => if e = "sub" ∧ i = 0 then some blueC else none }

/-- A document with a single free simple-shape root (entry `e`). -/
def docSingleSimple : Document Unit :=
  { roots := [XLabel.simple "e" "Part" 0 []], colors := emptyColors }

/-- A document with two free root assemblies (entries `a` and `b`), each
with no components. -/
def docTwoAssemblies : Document Unit :=
  { roots := [XLabel.assembly "a" "A" [], XLabel.assembly "b" "B" []],
    colors := emptyColors }

/-- A document with one root assembly (entry `a`) holding one reference
component (entry `c`) that refers to a simple-shape prototype (entry `s`). -/
def docAsmRefSimple : Document Unit :=
  { roots :=
      [XLabel.assembly "a" "A"
        [XComp.mk true "c" "C" () (XLabel.simple "s" "S" 0 [])]],
    colors := emptyColors }

/-- An initial walker state over the trivial transform monoid with all
tables empty (the state at the start of a first walk). -/
def wst0 : WSt Unit :=
  { part_dict := [], label_dict := [], share := fun _ => none, parentStack := [none],
    colors := emptyColors, outputs := [], trace := [] }

/-! ## Theorems -/

theorem setInstanceColor3_inst_self (ct : ColorTable) (sh : Nat) (c : Color) :
    (setInstanceColor3 ct sh c).inst sh 0 = some c ∧
    (setInstanceColor3 ct sh c).inst sh 1 = some c ∧
    (setInstanceColor3 ct sh c).inst sh 2 = some c := by
  refine ⟨?_, ?_, ?_⟩ <;> simp [setInstanceColor3, setInstanceColor]

theorem instColorQuery_setInstanceColor3 (ct : ColorTable) (sh : Nat) (c : Color) :
    instColorQuery (setInstanceColor3 ct sh c) sh = some c := by
  unfold instColorQuery
  rw [(setInstanceColor3_inst_self ct sh c).1]
  rfl

theorem _get_sub_shapes_simple_parts {M : Type} [Monoid M] [DecidableEq M]
    (st : WSt M) (e n : String) (sh : Nat) (subs : List SubShape) (locs : List M)
    (lvl : Nat) (hp : st.part_dict = []) :
    ((_get_sub_shapes (XLabel.simple e n sh subs) locs lvl st).part_dict.map
        (fun kv => kv.2.color)) = [(resolveColor st.colors sh e).1] := by
  simp [_get_sub_shapes, allocUidW, dictInsert, hp, subShapesLoop, insertLabelRec,
    insertPartRec]

theorem _get_sub_shapes_simple_colors_nil {M : Type} [Monoid M] [DecidableEq M]
    (st : WSt M) (e n : String) (sh : Nat) (locs : List M) (lvl : Nat) :
    (_get_sub_shapes (XLabel.simple e n sh []) locs lvl st).colors
      = (resolveColor st.colors sh e).2 := by
  simp [_get_sub_shapes, allocUidW, subShapesLoop, insertLabelRec, insertPartRec]

/-- C3: for a simple-shape label, an instance-level color at any of the
three scopes (queried in order, first success wins) becomes the Part
Record's color and never the label-level color (the result is independent
of the label-color table); otherwise a label-level color becomes the Part
Record's color and is written back to all three instance scopes, so a
subsequent instance-level query on the same shape returns the same value.
The third conjunct ties the resolved color to the stored Part Record. -/
theorem resolveColor_precedence_and_backwrite :
    (∀ (ct : ColorTable) (shape : Nat) (lab : String) (c : Color),
        instColorQuery ct shape = some c →
        (resolveColor ct shape lab).1 = c ∧
        (∀ L, (resolveColor { ct with lbl := L } shape lab).1 = c) ∧
        (resolveColor ct shape lab).2.inst shape 0 = some c ∧
        (resolveColor ct shape lab).2.inst shape 1 = some c ∧
        (resolveColor ct shape lab).2.inst shape 2 = some c) ∧
    (∀ (ct : ColorTable) (shape : Nat) (lab : String) (c : Color),
        instColorQuery ct shape = none → labelColorQuery ct lab = some c →
        (resolveColor ct shape lab).1 = c ∧
        (resolveColor ct shape lab).2.inst shape 0 = some c ∧
        (resolveColor ct shape lab).2.inst shape 1 = some c ∧
        (resolveColor ct shape lab).2.inst shape 2 = some c ∧
        instColorQuery (resolveColor ct shape lab).2 shape = some c) ∧
    (∀ {M : Type} [Monoid M] [DecidableEq M] (st : WSt M) (e n : String) (sh : Nat)
        (subs : List SubShape) (locs : List M) (lvl : Nat),
        st.part_dict = [] →
        ((_get_sub_shapes (XLabel.simple e n sh subs) locs lvl st).part_dict.map
            (fun kv => kv.2.color)) = [(resolveColor st.colors sh e).1]) := by
  refine ⟨?_, ?_, ?_⟩
  · intro ct shape lab c h
    have hr : resolveColor ct shape lab = (c, setInstanceColor3 ct shape c) := by
      unfold resolveColor
      rw [h]
    have hL : ∀ L, resolveColor { ct with lbl := L } shape lab
        = (c, setInstanceColor3 { ct with lbl := L } shape c) := by
      intro L
      unfold resolveColor
      have h2 : instColorQuery { ct with lbl := L } shape = some c := h
      rw [h2]
    refine ⟨by rw [hr], fun L => by rw [hL L], ?_, ?_, ?_⟩ <;> rw [hr]
    · exact (setInstanceColor3_inst_self ct shape c).1
    · exact (setInstanceColor3_inst_self ct shape c).2.1
    · exact (setInstanceColor3_inst_self ct shape c).2.2
  · intro ct shape lab c h1 h2
    have hr : resolveColor ct shape lab = (c, setInstanceColor3 ct shape c) := by
      unfold resolveColor
      rw [h1, h2]
    refine ⟨by rw [hr], ?_, ?_, ?_, ?_⟩ <;> rw [hr]
    · exact (setInstanceColor3_inst_self ct shape c).1
    · exact (setInstanceColor3_inst_self ct shape c).2.1
    · exact (setInstanceColor3_inst_self ct shape c).2.2
    · exact instColorQuery_setInstanceColor3 ct shape c
  · intro M _ _ st e n sh subs locs lvl hp
    exact _get_sub_shapes_simple_parts st e n sh subs locs lvl hp

theorem resolveColor_precedence_and_backwrite_witness :
    (resolveColor ctBoth 5 "lab").1 = redC ∧
    (resolveColor ctLabelOnly 5 "lab").1 = blueC ∧
    instColorQuery (resolveColor ctLabelOnly 5 "lab").2 5 = some blueC ∧
    ((_get_sub_shapes (XLabel.simple "e" "Part" 0 []) [] 0 wst0).part_dict.map
        (fun kv => kv.2.color)) = [(resolveColor wst0.colors 0 "e").1] :=
  ⟨(resolveColor_precedence_and_backwrite.1 ctBoth 5 "lab" redC (by decide)).1,
   (resolveColor_precedence_and_backwrite.2.1 ctLabelOnly 5 "lab" blueC (by decide)
      (by decide)).1,
   (resolveColor_precedence_and_backwrite.2.1 ctLabelOnly 5 "lab" blueC (by decide)
      (by decide)).2.2.2.2,
   resolveColor_precedence_and_backwrite.2.2 wst0 "e" "Part" 0 [] [] 0 rfl⟩

/-- C8: with no instance-level and no label-level color at any scope, the
resolved color is the default mid-gray and the color table is unchanged;
correspondingly, the Part Record stored for such a simple shape (with no
sub-shapes) carries the default gray and the walk leaves the color table
untouched. -/
theorem resolveColor_default_gray_no_write :
    (∀ (ct : ColorTable) (shape : Nat) (lab : String),
        instColorQuery ct shape = none → labelColorQuery ct lab = none →
        (resolveColor ct shape lab).1 = defaultGray ∧
        (resolveColor ct shape lab).2 = ct) ∧
    (∀ {M : Type} [Monoid M] [DecidableEq M] (st : WSt M) (e n : String) (sh : Nat)
        (locs : List M) (lvl : Nat),
        st.part_dict = [] → instColorQuery st.colors sh = none →
        labelColorQuery st.colors e = none →
        ((_get_sub_shapes (XLabel.simple e n sh []) locs lvl st).part_dict.map
            (fun kv => kv.2.color)) = [defaultGray] ∧
        (_get_sub_shapes (XLabel.simple e n sh []) locs lvl st).colors = st.colors) := by
  have hres : ∀ (ct : ColorTable) (shape : Nat) (lab : String),
      instColorQuery ct shape = none → labelColorQuery ct lab = none →
      resolveColor ct shape lab = (defaultGray, ct) := by
    intro ct shape lab h1 h2
    unfold resolveColor
    rw [h1, h2]
  refine ⟨fun ct shape lab h1 h2 => by rw [hres ct shape lab h1 h2]; exact ⟨rfl, rfl⟩, ?_⟩
  intro M _ _ st e n sh locs lvl hp h1 h2
  constructor
  · rw [_get_sub_shapes_simple_parts st e n sh [] locs lvl hp, hres _ _ _ h1 h2]
  · rw [_get_sub_shapes_simple_colors_nil, hres _ _ _ h1 h2]

theorem resolveColor_default_gray_no_write_witness :
    ((resolveColor emptyColors 0 "x").1 = defaultGray ∧
      (resolveColor emptyColors 0 "x").2 = emptyColors) ∧
    (((_get_sub_shapes (XLabel.simple "e" "Part" 0 []) [] 0 wst0).part_dict.map
        (fun kv => kv.2.color)) = [defaultGray] ∧
      (_get_sub_shapes (XLabel.simple "e" "Part" 0 []) [] 0 wst0).colors = wst0.colors) :=
  ⟨resolveColor_default_gray_no_write.1 emptyColors 0 "x" rfl rfl,
   resolveColor_default_gray_no_write.2 wst0 "e" "Part" 0 [] 0 rfl rfl rfl⟩

/-- C7: the claim says a sub-shape that has only a label-level color gets
that color asserted at all three instance scopes of the sub-shape itself.
The code instead writes it to the enclosing simple shape's handle (source
lines 375-377 use `shape`, not `shape_sub`): evaluated on a sub-shape
(handle 1, label `sub`, label-level blue at scope 0) inside a parent shape
(handle 0), the walk-back lands on handle 0 and a subsequent instance-level
query on the sub-shape still finds nothing. -/
theorem resolveSubColor_label_backwrite_hits_parent :
    (resolveSubColor ctSubLabelOnly 1 0 "sub").1 = blueC ∧
    ((resolveSubColor ctSubLabelOnly 1 0 "sub").2.inst 0 0 = some blueC ∧
      (resolveSubColor ctSubLabelOnly 1 0 "sub").2.inst 0 1 = some blueC ∧
      (resolveSubColor ctSubLabelOnly 1 0 "sub").2.inst 0 2 = some blueC) ∧
    ((resolveSubColor ctSubLabelOnly 1 0 "sub").2.inst 1 0 = none ∧
      (resolveSubColor ctSubLabelOnly 1 0 "sub").2.inst 1 1 = none ∧
      (resolveSubColor ctSubLabelOnly 1 0 "sub").2.inst 1 2 = none) ∧
    instColorQuery (resolveSubColor ctSubLabelOnly 1 0 "sub").2 1 = none := by
  decide

/-- C9: when reading the STEP file fails, `load_stp` returns normally,
leaves `part_dict`, `label_dict`, `_share_dict` and `_parent_uid_stack`
unchanged, and replaces the document with the fresh empty one, so a model
that was empty stays empty. -/
theorem load_stp_failure_preserves_tables {M : Type} [Monoid M] [DecidableEq M]
    (m : DocModel M) (filename : String) (h : filename ≠ "") :
    load_stp m filename none = { m with doc := emptyStepDoc M } := by
  unfold load_stp
  rw [if_neg h]
  rfl

theorem load_stp_failure_preserves_tables_witness :
    load_stp (mkDocModel docSingleSimple) "missing.step" none
      = { mkDocModel docSingleSimple with doc := emptyStepDoc Unit } :=
  load_stp_failure_preserves_tables (mkDocModel docSingleSimple) "missing.step" (by decide)

/-- C10: calling `load_stp` with an empty (falsy) filename returns
immediately: the whole `DocModel` state — document, `part_dict`,
`label_dict`, serial map and parent stack — is unchanged and `parse_doc`
is never invoked. -/
theorem load_stp_empty_filename_noop {M : Type} [Monoid M] [DecidableEq M]
    (m : DocModel M) (readResult : Option (Document M)) :
    load_stp m "" readResult = m := by
  unfold load_stp
  rw [if_pos rfl]

/-- C1: `parse_doc` never clears `part_dict` or `label_dict`, contradicting
its own docstring (it only inserts). Evaluated on a document with one
simple-shape root `e`: the first walk stores the record keyed `e.0`; after
a second `parse_doc` call both tables still contain the first walk's
record `e.0` alongside the new `e.1`. -/
theorem parse_doc_twice_keeps_old_records :
    ((parse_doc (parse_doc (mkDocModel docSingleSimple)).model).model.label_dict.map
        Prod.fst) = ["e.0", "e.1"] ∧
    ((parse_doc (parse_doc (mkDocModel docSingleSimple)).model).model.part_dict.map
        Prod.fst) = ["e.0", "e.1"] ∧
    ((parse_doc (mkDocModel docSingleSimple)).model.label_dict.map Prod.fst)
      = ["e.0"] := by
  decide

/-- C6: `_get_shapes` never resets `_parent_uid_stack` between roots, and
the trimming inside the component loop never removes a root assembly's own
frame; on a document with two free root assemblies `a` and `b`, the second
root's Label Record gets `parent_uid = "a.0"` instead of none. -/
theorem second_root_parent_uid_not_none :
    ((parse_doc (mkDocModel docTwoAssemblies)).model.label_dict.map
        (fun kv => (kv.1, kv.2.parent_uid))) = [("a.0", none), ("b.0", some "a.0")] := by
  decide

/-- C5 counterexample: on a document with one root assembly whose single
reference component points at a simple-shape prototype, the walk emits
three uids (`a.0` for the assembly, `c.0` for the component entry — used
only for logging — and `s.0` for the prototype) but stores only two Label
Records, so `len(label_dict)` does not equal the number of uids the
allocator returned. -/
theorem label_table_size_ne_uid_count :
    (parse_doc (mkDocModel docAsmRefSimple)).uidTrace = ["a.0", "c.0", "s.0"] ∧
    (parse_doc (mkDocModel docAsmRefSimple)).uidTrace.Nodup ∧
    (parse_doc (mkDocModel docAsmRefSimple)).model.label_dict.length = 2 ∧
    ¬((parse_doc (mkDocModel docAsmRefSimple)).model.label_dict.length
        = (parse_doc (mkDocModel docAsmRefSimple)).uidTrace.length) := by
  decide

/-! ### Decimal-representation lemmas: `str(n)` is injective and dot-free -/

theorem toDigitsCore_eq_digits (fuel : Nat) :
    ∀ (n : Nat) (ds : List Char), 0 < n → n ≤ fuel →
      Nat.toDigitsCore 10 fuel n ds
        = ((Nat.digits 10 n).map Nat.digitChar).reverse ++ ds := by
  induction fuel with
  | zero => intro n ds hn hf; omega
  | succ fuel ih =>
    intro n ds hn hf
    show (if n / 10 = 0 then Nat.digitChar (n % 10) :: ds
          else Nat.toDigitsCore 10 fuel (n / 10) (Nat.digitChar (n % 10) :: ds)) = _
    by_cases h0 : n / 10 = 0
    · rw [if_pos h0, Nat.digits_def' (by norm_num : (1 : Nat) < 10) hn, h0]
      simp
    · have hlt : n / 10 < n := Nat.div_lt_self hn (by norm_num)
      rw [if_neg h0,
        ih (n / 10) (Nat.digitChar (n % 10) :: ds) (Nat.pos_of_ne_zero h0) (by omega),
        Nat.digits_def' (by norm_num : (1 : Nat) < 10) hn]
      simp [List.append_assoc]

theorem repr_data_eq (n : Nat) (hn : 0 < n) :
    (Nat.repr n).data = ((Nat.digits 10 n).map Nat.digitChar).reverse := by
  show (Nat.toDigitsCore 10 (n + 1) n []).asString.data = _
  rw [toDigitsCore_eq_digits (n + 1) n [] hn (Nat.le_succ n), List.append_nil]
  rfl

theorem repr_zero_data : (Nat.repr 0).data = ['0'] := by decide

theorem digitChar_ne_dot : ∀ d : Nat, d < 10 → Nat.digitChar d ≠ '.' := by decide

theorem dot_not_mem_repr (n : Nat) : '.' ∉ (Nat.repr n).data := by
  rcases Nat.eq_zero_or_pos n with h | h
  · subst h
    rw [repr_zero_data]
    decide
  · rw [repr_data_eq n h]
    intro hmem
    rw [List.mem_reverse] at hmem
    rcases List.mem_map.mp hmem with ⟨d, hd, hc⟩
    exact digitChar_ne_dot d (Nat.digits_lt_base (by norm_num) hd) hc

theorem digitChar_inj_lt :
    ∀ a : Nat, a < 10 → ∀ b : Nat, b < 10 → Nat.digitChar a = Nat.digitChar b → a = b := by
  decide

theorem map_digitChar_inj :
    ∀ (l1 l2 : List Nat), (∀ d ∈ l1, d < 10) → (∀ d ∈ l2, d < 10) →
      l1.map Nat.digitChar = l2.map Nat.digitChar → l1 = l2 := by
  intro l1
  induction l1 with
  | nil =>
    intro l2 _ _ h
    cases l2 with
    | nil => rfl
    | cons b bs => simp at h
  | cons a as ih =>
    intro l2 h1 h2 h
    cases l2 with
    | nil => simp at h
    | cons b bs =>
      simp only [List.map_cons, List.cons.injEq] at h
      have ha : a = b := digitChar_inj_lt a (h1 a (by simp)) b (h2 b (by simp)) h.1
      have hs := ih bs (fun d hd => h1 d (by simp [hd])) (fun d hd => h2 d (by simp [hd])) h.2
      rw [ha, hs]

theorem nat_repr_injective : Function.Injective Nat.repr := by
  have hzp : ∀ n : Nat, 0 < n → (Nat.repr 0).data ≠ (Nat.repr n).data := by
    intro n hn hd
    rw [repr_zero_data, repr_data_eq n hn] at hd
    have h1 : (Nat.digits 10 n).map Nat.digitChar = ['0'] := by
      have h2 := congrArg List.reverse hd
      simpa using h2.symm
    have h2 : Nat.digits 10 n = [0] :=
      map_digitChar_inj _ [0] (fun d hd2 => Nat.digits_lt_base (by norm_num) hd2)
        (by intro d hd2; simp at hd2; omega) (by simpa using h1)
    have h3 : n = Nat.ofDigits 10 (Nat.digits 10 n) := (Nat.ofDigits_digits 10 n).symm
    rw [h2] at h3
    simp [Nat.ofDigits] at h3
    omega
  intro m n h
  have hd : (Nat.repr m).data = (Nat.repr n).data := by rw [h]
  rcases Nat.eq_zero_or_pos m with hm | hm <;> rcases Nat.eq_zero_or_pos n with hn | hn
  · omega
  · exact absurd hd (by rw [hm]; exact hzp n hn)
  · exact absurd hd.symm (by rw [hn]; exact hzp m hm)
  · rw [repr_data_eq m hm, repr_data_eq n hn] at hd
    have h1 := List.reverse_injective hd
    have h2 := map_digitChar_inj _ _ (fun d hd2 => Nat.digits_lt_base (by norm_num) hd2)
      (fun d hd2 => Nat.digits_lt_base (by norm_num) hd2) h1
    exact Nat.digits.injective 10 h2

theorem append_sep_inj {α : Type} (d : α) :
    ∀ (l1 r1 l2 r2 : List α), d ∉ r1 → d ∉ r2 →
      l1 ++ d :: r1 = l2 ++ d :: r2 → l1 = l2 ∧ r1 = r2 := by
  intro l1
  induction l1 with
  | nil =>
    intro r1 l2 r2 h1 h2 h
    cases l2 with
    | nil =>
      simp only [List.nil_append, List.cons.injEq] at h
      exact ⟨rfl, h.2⟩
    | cons x xs =>
      simp only [List.nil_append, List.cons_append, List.cons.injEq] at h
      exact absurd (by rw [h.2]; simp [h.1] : d ∈ r1) h1
  | cons a as ih =>
    intro r1 l2 r2 h1 h2 h
    cases l2 with
    | nil =>
      simp only [List.nil_append, List.cons_append, List.cons.injEq] at h
      exact absurd (by rw [← h.2]; simp [h.1] : d ∈ r2) h2
    | cons b bs =>
      simp only [List.cons_append, List.cons.injEq] at h
      obtain ⟨hab, htail⟩ := h
      obtain ⟨hl, hr⟩ := ih r1 bs r2 h1 h2 htail
      exact ⟨by rw [hab, hl], hr⟩

theorem uid_string_inj (e1 e2 : String) (k1 k2 : Nat)
    (h : e1 ++ "." ++ toString k1 = e2 ++ "." ++ toString k2) : e1 = e2 ∧ k1 = k2 := by
  have hd : (e1.data ++ ['.']) ++ (Nat.repr k1).data
      = (e2.data ++ ['.']) ++ (Nat.repr k2).data := congrArg String.data h
  rw [List.append_assoc, List.append_assoc] at hd
  obtain ⟨h1, h2⟩ := append_sep_inj '.' e1.data (Nat.repr k1).data e2.data
    (Nat.repr k2).data (dot_not_mem_repr k1) (dot_not_mem_repr k2) hd
  exact ⟨String.ext h1, nat_repr_injective (String.ext h2)⟩

/-! ### Allocator lemmas -/

theorem alloc_fresh (share : String → Option Nat) (t : List String) (e : String)
    (hI : AllocInv share t) :
    (_get_uid_from_entry share e).1 ∉ t ∧
    AllocInv (_get_uid_from_entry share e).2
      (t ++ [(_get_uid_from_entry share e).1]) := by
  rcases hse : share e with _ | v
  all_goals
    simp only [_get_uid_from_entry, hse]
    constructor
  · intro hmem
    obtain ⟨e2, k, v0, hu, hs, hk⟩ := hI _ hmem
    obtain ⟨he, hs2⟩ := uid_string_inj e2 e k 0 hu.symm
    rw [he, hse] at hs
    exact Option.noConfusion hs
  · intro u hu
    rcases List.mem_append.mp hu with hu1 | hu2
    · obtain ⟨e2, k, v0, hu, hs, hk⟩ := hI _ hu1
      by_cases hee : e2 = e
      · rw [hee, hse] at hs
        exact Option.noConfusion hs
      · exact ⟨e2, k, v0, hu, by simp [hee, hs], hk⟩
    · have hu2 := List.mem_singleton.mp hu2
      exact ⟨e, 0, 0, hu2, by simp, le_refl 0⟩
  · intro hmem
    obtain ⟨e2, k, v0, hu, hs, hk⟩ := hI _ hmem
    obtain ⟨he, hs2⟩ := uid_string_inj e2 e k (v + 1) hu.symm
    rw [he, hse] at hs
    have hv : v0 = v := by
      have := Option.some.inj hs
      omega
    omega
  · intro u hu
    rcases List.mem_append.mp hu with hu1 | hu2
    · obtain ⟨e2, k, v0, hu, hs, hk⟩ := hI _ hu1
      by_cases hee : e2 = e
      · refine ⟨e, k, v + 1, by rw [← hee]; exact hu, by simp, ?_⟩
        rw [hee, hse] at hs
        have := Option.some.inj hs
        omega
      · exact ⟨e2, k, v0, hu, by simp [hee, hs], hk⟩
    · have hu2 := List.mem_singleton.mp hu2
      exact ⟨e, v + 1, v + 1, hu2, by simp, le_refl _⟩

theorem allocRun_cons (share : String → Option Nat) (e : String) (rest : List String) :
    allocRun share (e :: rest)
      = ((_get_uid_from_entry share e).1
            :: (allocRun (_get_uid_from_entry share e).2 rest).1,
         (allocRun (_get_uid_from_entry share e).2 rest).2) := rfl

theorem allocRun_nodup_gen :
    ∀ (es : List String) (share : String → Option Nat) (t : List String),
      AllocInv share t → t.Nodup →
      AllocInv (allocRun share es).2 (t ++ (allocRun share es).1) ∧
      (t ++ (allocRun share es).1).Nodup := by
  intro es
  induction es with
  | nil =>
    intro share t hI hN
    simpa [allocRun] using ⟨hI, hN⟩
  | cons e rest ih =>
    intro share t hI hN
    obtain ⟨hf, hI2⟩ := alloc_fresh share t e hI
    have hN2 : (t ++ [(_get_uid_from_entry share e).1]).Nodup := by
      refine List.Nodup.append hN (List.nodup_singleton _) ?_
      intro x hx hx2
      rw [List.mem_singleton.mp hx2] at hx
      exact hf hx
    obtain ⟨hIr, hNr⟩ := ih (_get_uid_from_entry share e).2
      (t ++ [(_get_uid_from_entry share e).1]) hI2 hN2
    have hsplit : t ++ (_get_uid_from_entry share e).1
          :: (allocRun (_get_uid_from_entry share e).2 rest).1
        = (t ++ [(_get_uid_from_entry share e).1])
          ++ (allocRun (_get_uid_from_entry share e).2 rest).1 := by
      simp
    constructor
    · rw [allocRun_cons, hsplit]
      exact hIr
    · rw [allocRun_cons, hsplit]
      exact hNr

/-- C4: `_get_uid_from_entry` keeps an entry-to-last-serial map and returns
`entry + '.' + str(serial)`, with serial 0 on the first call for an entry
and incrementing by one on each later call for the same entry; over the
whole lifetime of the backing map (any run starting from the empty map) no
uid is ever returned twice. -/
theorem uid_allocator_spec :
    (∀ (share : String → Option Nat) (e : String),
        share e = none →
        (_get_uid_from_entry share e).1 = e ++ "." ++ toString 0 ∧
        (_get_uid_from_entry share e).2 e = some 0) ∧
    (∀ (share : String → Option Nat) (e : String) (v : Nat),
        share e = some v →
        (_get_uid_from_entry share e).1 = e ++ "." ++ toString (v + 1) ∧
        (_get_uid_from_entry share e).2 e = some (v + 1)) ∧
    (∀ entries : List String, ((allocRun (fun _ => none) entries).1).Nodup) := by
  refine ⟨?_, ?_, ?_⟩
  · intro share e h
    simp [_get_uid_from_entry, h]
  · intro share e v h
    simp [_get_uid_from_entry, h]
  · intro entries
    have h := allocRun_nodup_gen entries (fun _ => none) [] (by intro u hu; simp at hu)
      List.nodup_nil
    simpa using h.2

theorem uid_allocator_spec_witness :
    (_get_uid_from_entry (fun _ => none) "0:1:1").1 = "0:1:1.0" ∧
    (_get_uid_from_entry (fun x => if x = "0:1:1" then some 0 else none) "0:1:1").1
      = "0:1:1.1" ∧
    ((allocRun (fun _ => none) ["0:1:1", "0:1:1", "0:1:2"]).1).Nodup := by
  refine ⟨?_, ?_, uid_allocator_spec.2.2 ["0:1:1", "0:1:1", "0:1:2"]⟩
  · rw [(uid_allocator_spec.1 (fun _ => none) "0:1:1" rfl).1]
    decide
  · rw [(uid_allocator_spec.2.1 (fun x => if x = "0:1:1" then some 0 else none)
      "0:1:1" 0 (by decide)).1]
    decide

/-! ### Per-step walker lemmas -/

theorem dictInsert_fresh {K V : Type} [DecidableEq K] (d : List (K × V)) (k : K) (v : V)
    (h : k ∉ d.map Prod.fst) : dictInsert d k v = d ++ [(k, v)] := by
  unfold dictInsert
  rw [if_neg h]

theorem nodup_append_singleton {α : Type} {t : List α} {u : α} (hN : t.Nodup)
    (hf : u ∉ t) : (t ++ [u]).Nodup := by
  refine List.Nodup.append hN (List.nodup_singleton u) ?_
  intro x hx hx2
  rw [List.mem_singleton.mp hx2] at hx
  exact hf hx

theorem subset_append_singleton {α : Type} {l t : List α} {u : α} (h : l ⊆ t) :
    l ⊆ t ++ [u] :=
  h.trans (List.subset_append_left t [u])

theorem allocUidW_winv {M : Type} (st : WSt M) (e : String) (h : WInv st) :
    WInv (allocUidW st e).2 ∧ (allocUidW st e).1 ∉ st.trace ∧
    (allocUidW st e).1 ∈ (allocUidW st e).2.trace := by
  obtain ⟨hA, hN, hLs, hLn, hPs, hPn⟩ := h
  obtain ⟨hf, hA2⟩ := alloc_fresh st.share st.trace e hA
  exact ⟨⟨hA2, nodup_append_singleton hN hf, subset_append_singleton hLs, hLn,
    subset_append_singleton hPs, hPn⟩, hf, by simp [allocUidW]⟩

theorem insertLabelRec_winv {M : Type} (st : WSt M) (u : String) (r : LabelRec)
    (h : WInv st) (hu : u ∈ st.trace) (hk : u ∉ st.label_dict.map Prod.fst) :
    WInv (insertLabelRec st u r) ∧
    (insertLabelRec st u r).label_dict = st.label_dict ++ [(u, r)] := by
  obtain ⟨hA, hN, hLs, hLn, hPs, hPn⟩ := h
  have hins : (insertLabelRec st u r).label_dict = st.label_dict ++ [(u, r)] := by
    show dictInsert st.label_dict u r = _
    exact dictInsert_fresh _ _ _ hk
  refine ⟨⟨hA, hN, ?_, ?_, hPs, hPn⟩, hins⟩
  · show (insertLabelRec st u r).label_dict.map Prod.fst ⊆ st.trace
    rw [hins, List.map_append]
    intro x hx
    rcases List.mem_append.mp hx with hx | hx
    · exact hLs hx
    · simp only [List.map_cons, List.map_nil, List.mem_singleton] at hx
      rw [hx]
      exact hu
  · show ((insertLabelRec st u r).label_dict.map Prod.fst).Nodup
    rw [hins, List.map_append]
    exact nodup_append_singleton hLn (by simpa using hk)

theorem insertPartRec_winv {M : Type} (st : WSt M) (u : String) (p : PartRec M)
    (h : WInv st) (hu : u ∈ st.trace) (hk : u ∉ st.part_dict.map Prod.fst) :
    WInv (insertPartRec st u p) ∧
    (insertPartRec st u p).part_dict = st.part_dict ++ [(u, p)] := by
  obtain ⟨hA, hN, hLs, hLn, hPs, hPn⟩ := h
  have hins : (insertPartRec st u p).part_dict = st.part_dict ++ [(u, p)] := by
    show dictInsert st.part_dict u p = _
    exact dictInsert_fresh _ _ _ hk
  refine ⟨⟨hA, hN, hLs, hLn, ?_, ?_⟩, hins⟩
  · show (insertPartRec st u p).part_dict.map Prod.fst ⊆ st.trace
    rw [hins, List.map_append]
    intro x hx
    rcases List.mem_append.mp hx with hx | hx
    · exact hPs hx
    · simp only [List.map_cons, List.map_nil, List.mem_singleton] at hx
      rw [hx]
      exact hu
  · show ((insertPartRec st u p).part_dict.map Prod.fst).Nodup
    rw [hins, List.map_append]
    exact nodup_append_singleton hPn (by simpa using hk)

theorem walkExt_trans {M : Type} [Monoid M] {st1 st2 st3 : WSt M}
    {l1 l2 : List (Nat × List M)} (h1 : WalkExt st1 st2 l1) (h2 : WalkExt st2 st3 l2) :
    WalkExt st1 st3 (l1 ++ l2) := by
  obtain ⟨t1, a1, p1, ht1, ha1, hp1, hs1⟩ := h1
  obtain ⟨t2, a2, p2, ht2, ha2, hp2, hs2⟩ := h2
  exact ⟨t1 ++ t2, a1 ++ a2, p1 ++ p2, by rw [ht2, ht1, List.append_assoc],
    by rw [ha2, ha1, List.append_assoc], by rw [hp2, hp1, List.append_assoc],
    by rw [List.map_append, List.map_append, hs1, hs2]⟩

theorem walkExt_of_projs {M : Type} [Monoid M] {st sta : WSt M}
    (ht : sta.trace = st.trace) (hl : sta.label_dict = st.label_dict)
    (hp : sta.part_dict = st.part_dict) : WalkExt st sta [] :=
  ⟨[], [], [], by simp [ht], by simp [hl], by simp [hp], by simp⟩

theorem walkExt_allocUidW {M : Type} [Monoid M] (st : WSt M) (e : String) :
    WalkExt st (allocUidW st e).2 [] :=
  ⟨[(allocUidW st e).1], [], [], rfl, (List.append_nil _).symm,
   (List.append_nil _).symm, rfl⟩

theorem walkExt_insertLabelRec {M : Type} [Monoid M] (st : WSt M) (u : String)
    (r : LabelRec) (hk : u ∉ st.label_dict.map Prod.fst) :
    WalkExt st (insertLabelRec st u r) [] :=
  ⟨[], [(u, r)], [], (List.append_nil _).symm,
   by show dictInsert st.label_dict u r = _; exact dictInsert_fresh _ _ _ hk,
   (List.append_nil _).symm, rfl⟩

theorem walkExt_insertPartRec {M : Type} [Monoid M] (st : WSt M) (u : String)
    (p : PartRec M) (hk : u ∉ st.part_dict.map Prod.fst)
    (leaves : List (Nat × List M))
    (hl : leaves.map (fun x => (x.1, List.foldl (fun a b => a * b) 1 x.2)) = [p.shape]) :
    WalkExt st (insertPartRec st u p) leaves :=
  ⟨[], [], [(u, p)], (List.append_nil _).symm, (List.append_nil _).symm,
   by show dictInsert st.part_dict u p = _; exact dictInsert_fresh _ _ _ hk,
   by simp [hl]⟩

/-! ### The master walk invariant -/

mutual
theorem _get_sub_shapes_inv {M : Type} [Monoid M] [DecidableEq M]
    (lab : XLabel M) (locs : List M) (lvl : Nat) (st : WSt M) (h : WInv st) :
    WInv (_get_sub_shapes lab locs lvl st) ∧
    WalkExt st (_get_sub_shapes lab locs lvl st) (specLeavesL lab locs) :=
  match lab with
  | XLabel.assembly e n comps => by
    obtain ⟨hW1, hfr, hmem⟩ := allocUidW_winv st e h
    have hk : (allocUidW st e).1 ∉ (allocUidW st e).2.label_dict.map Prod.fst :=
      fun hx => hfr (h.2.2.1 hx)
    simp only [_get_sub_shapes, specLeavesL]
    let lrec : LabelRec :=
      { entry := e, name := n, parent_uid := (allocUidW st e).2.parentStack.getLastD none,
        ref_entry := none, is_assy := true }
    let st2 := insertLabelRec (allocUidW st e).2 (allocUidW st e).1 lrec
    let st3 := pushParent st2 (allocUidW st e).1
    obtain ⟨hW2, hins⟩ :=
      insertLabelRec_winv (allocUidW st e).2 (allocUidW st e).1 lrec hW1 hmem hk
    have hW3 : WInv st3 := hW2
    obtain ⟨hWr, hExtR⟩ := _get_sub_shapes_comps_inv comps locs lvl st3 hW3
    refine ⟨hWr, ?_⟩
    have hE1 := walkExt_allocUidW (M := M) st e
    have hE2 := walkExt_insertLabelRec (M := M) (allocUidW st e).2 (allocUidW st e).1
      lrec hk
    have hE3 : WalkExt st2 st3 [] := walkExt_of_projs rfl rfl rfl
    have hAll := walkExt_trans hE1 (walkExt_trans hE2 (walkExt_trans hE3 hExtR))
    simpa only [List.nil_append, List.append_nil] using hAll
  | XLabel.simple e n sh subs => by
    obtain ⟨hW1, hfr, hmem⟩ := allocUidW_winv st e h
    have hk : (allocUidW st e).1 ∉ (allocUidW st e).2.label_dict.map Prod.fst :=
      fun hx => hfr (h.2.2.1 hx)
    have hkp : (allocUidW st e).1 ∉ (allocUidW st e).2.part_dict.map Prod.fst :=
      fun hx => hfr (h.2.2.2.2.1 hx)
    simp only [_get_sub_shapes, specLeavesL]
    let lrec : LabelRec :=
      { entry := e, name := n, parent_uid := (allocUidW st e).2.parentStack.getLastD none,
        ref_entry := none, is_assy := false }
    let st2 := insertLabelRec (allocUidW st e).2 (allocUidW st e).1 lrec
    let loc := locs.foldl (fun acc l => acc * l) 1
    let r := resolveColor st2.colors sh e
    let st3 := { st2 with colors := r.2 }
    let st4 := { st3 with outputs := dictInsertIfAbsent st3.outputs (sh, loc) (n, r.1) }
    let prec : PartRec M := { shape := (sh, loc), name := n, color := r.1 }
    let st5 := insertPartRec st4 (allocUidW st e).1 prec
    let q := subShapesLoop loc sh subs (st5.colors, st5.outputs)
    let stF := { st5 with colors := q.1, outputs := q.2 }
    obtain ⟨hW2, hins⟩ :=
      insertLabelRec_winv (allocUidW st e).2 (allocUidW st e).1 lrec hW1 hmem hk
    have hW4 : WInv st4 := hW2
    have hW5 := insertPartRec_winv st4 (allocUidW st e).1 prec hW4 hmem hkp
    refine ⟨hW5.1, ?_⟩
    have hE1 := walkExt_allocUidW (M := M) st e
    have hE2 := walkExt_insertLabelRec (M := M) (allocUidW st e).2 (allocUidW st e).1
      lrec hk
    have hE3 : WalkExt st2 st4 [] := walkExt_of_projs rfl rfl rfl
    have hE4 : WalkExt st4 st5 [(sh, locs)] :=
      walkExt_insertPartRec st4 (allocUidW st e).1 prec hkp [(sh, locs)] rfl
    have hE5 : WalkExt st5 stF [] := walkExt_of_projs rfl rfl rfl
    have hAll :=
      walkExt_trans hE1 (walkExt_trans hE2 (walkExt_trans hE3 (walkExt_trans hE4 hE5)))
    simpa only [List.nil_append, List.append_nil] using hAll
  | XLabel.other e n => by
    obtain ⟨hW1, hfr, hmem⟩ := allocUidW_winv st e h
    refine ⟨hW1, ?_⟩
    simpa [specLeavesL] using walkExt_allocUidW (M := M) st e

theorem _get_sub_shapes_comps_inv {M : Type} [Monoid M] [DecidableEq M]
    (cs : List (XComp M)) (locs : List M) (lvl : Nat) (st : WSt M) (h : WInv st) :
    WInv (_get_sub_shapes_comps cs locs lvl st) ∧
    WalkExt st (_get_sub_shapes_comps cs locs lvl st) (specLeavesC cs locs) :=
  match cs with
  | [] => by
    refine ⟨h, ?_⟩
    simpa [specLeavesC, _get_sub_shapes_comps]
      using (walkExt_of_projs rfl rfl rfl : WalkExt st st [])
  | XComp.mk true ce cn cloc target :: rest => by
    obtain ⟨hW1, hfr, hmem⟩ := allocUidW_winv st ce h
    simp only [_get_sub_shapes_comps, specLeavesC, if_true]
    obtain ⟨hWt, hExtT⟩ :=
      _get_sub_shapes_inv target (locs ++ [cloc]) (lvl + 1) (allocUidW st ce).2 hW1
    let stT := _get_sub_shapes target (locs ++ [cloc]) (lvl + 1) (allocUidW st ce).2
    let stTrim := { stT with parentStack := stT.parentStack.take (lvl + 2) }
    have hWtrim : WInv stTrim := hWt
    obtain ⟨hWr, hExtR⟩ := _get_sub_shapes_comps_inv rest locs lvl stTrim hWtrim
    refine ⟨hWr, ?_⟩
    have hE1 := walkExt_allocUidW (M := M) st ce
    have hE3 : WalkExt stT stTrim [] := walkExt_of_projs rfl rfl rfl
    have hAll := walkExt_trans hE1 (walkExt_trans hExtT (walkExt_trans hE3 hExtR))
    simpa only [List.nil_append, List.append_nil] using hAll
  | XComp.mk false ce cn cloc target :: rest => by
    obtain ⟨hWr, hExtR⟩ := _get_sub_shapes_comps_inv rest locs lvl st h
    refine ⟨hWr, ?_⟩
    simpa [specLeavesC, _get_sub_shapes_comps] using hExtR
end

theorem _get_shapes_inv {M : Type} [Monoid M] [DecidableEq M] :
    ∀ (roots : List (XLabel M)) (st : WSt M), WInv st →
      WInv (_get_shapes roots st) ∧
      WalkExt st (_get_shapes roots st) (specLeaves roots) := by
  intro roots
  induction roots with
  | nil =>
    intro st h
    refine ⟨h, ?_⟩
    simpa [specLeaves, _get_shapes]
      using (walkExt_of_projs rfl rfl rfl : WalkExt st st [])
  | cons r rest ih =>
    intro st h
    obtain ⟨hW1, hE1⟩ := _get_sub_shapes_inv r [] 0 st h
    obtain ⟨hW2, hE2⟩ := ih (_get_sub_shapes r [] 0 st) hW1
    exact ⟨hW2, walkExt_trans hE1 hE2⟩

theorem winv_initial {M : Type} (share : String → Option Nat)
    (ps : List (Option String)) (cs : ColorTable)
    (os : List ((Nat × M) × (String × Color))) :
    WInv ({ part_dict := [], label_dict := [], share := share, parentStack := ps,
            colors := cs, outputs := os, trace := [] } : WSt M) := by
  refine ⟨?_, List.nodup_nil, ?_, List.nodup_nil, ?_, List.nodup_nil⟩
  · intro u hu
    simp at hu
  · intro x hx
    simp at hx
  · intro x hx
    simp at hx

theorem nodup_subset_length_le {α : Type} [DecidableEq α] {l t : List α}
    (hl : l.Nodup) (hs : l ⊆ t) : l.length ≤ t.length := by
  have h1 : l.toFinset.card = l.length := List.toFinset_card_of_nodup hl
  have h2 : l.toFinset ⊆ t.toFinset := by
    intro x hx
    rw [List.mem_toFinset] at hx ⊢
    exact hs hx
  have h3 := Finset.card_le_card h2
  have h4 := List.toFinset_card_le t
  omega

/-- C2: for every simple-shape leaf reached through N enclosing reference
labels, the transform baked into its Part Record's positioned shape equals
the product of exactly those N ancestor reference transforms composed
parent-first: walking a fresh model, the stored positioned shapes are, in
order, the specification-side leaves paired with the product of their
ancestor-reference transform paths (root-to-leaf order). -/
theorem walk_part_transform_eq_ancestor_product {M : Type} [Monoid M] [DecidableEq M]
    (doc : Document M) :
    ((parse_doc (mkDocModel doc)).model.part_dict.map (fun kv => kv.2.shape))
      = (specLeaves doc.roots).map (fun x => (x.1, x.2.prod)) := by
  obtain ⟨hW, hE⟩ := _get_shapes_inv doc.roots
    { part_dict := [], label_dict := [], share := fun _ => none, parentStack := [none],
      colors := doc.colors, outputs := [], trace := [] }
    (winv_initial (fun _ => none) [none] doc.colors [])
  obtain ⟨nT, nL, nP, hT, hL, hP, hS⟩ := hE
  calc (parse_doc (mkDocModel doc)).model.part_dict.map (fun kv => kv.2.shape)
      = (([] : List (String × PartRec M)) ++ nP).map (fun kv => kv.2.shape) := by
        rw [show (parse_doc (mkDocModel doc)).model.part_dict = [] ++ nP from hP]
    _ = nP.map (fun kv => kv.2.shape) := by simp
    _ = (specLeaves doc.roots).map
          (fun x => (x.1, List.foldl (fun a b => a * b) 1 x.2)) := hS
    _ = (specLeaves doc.roots).map (fun x => (x.1, x.2.prod)) :=
        List.map_congr_left (fun x _ => by rw [List.prod_eq_foldl])

/-- C5 (amended): within one walk of a fresh model every uid produced by
the allocator is unique; every Label Table key is one of the emitted uids,
so `len(label_dict)` is at most — but, because uids allocated for
reference-component entries and for labels of other kinds are never stored,
not in general equal to — the number of uids the allocator returned. -/
theorem walk_uids_unique_and_label_table_bounded {M : Type} [Monoid M] [DecidableEq M]
    (doc : Document M) :
    (parse_doc (mkDocModel doc)).uidTrace.Nodup ∧
    (parse_doc (mkDocModel doc)).model.label_dict.map Prod.fst
      ⊆ (parse_doc (mkDocModel doc)).uidTrace ∧
    (parse_doc (mkDocModel doc)).model.label_dict.length
      ≤ (parse_doc (mkDocModel doc)).uidTrace.length := by
  obtain ⟨hW, hE⟩ := _get_shapes_inv doc.roots
    { part_dict := [], label_dict := [], share := fun _ => none, parentStack := [none],
      colors := doc.colors, outputs := [], trace := [] }
    (winv_initial (fun _ => none) [none] doc.colors [])
  obtain ⟨hA, hN, hLs, hLn, hPs, hPn⟩ := hW
  refine ⟨hN, hLs, ?_⟩
  have h1 := nodup_subset_length_le hLn hLs
  simpa only [List.length_map] using h1

end ExploreStep
